import Mathlib

set_option maxRecDepth 4000

/-!
Verification of the dogtail log-tailing engine.

The development shallowly embeds `src/dogtail/__init__.py`:

* `Offset` mirrors the Python `Offset` data-class with its comparison methods.
* `FS` abstracts the file system visible to the engine: `lookup` maps a
  candidate path (identified by its index-like id) to the inode of the file an
  `open` call would yield (`none` when `open` raises `OSError`), and `content`
  gives the full byte content of each inode as a list of characters.
* `DogState` mirrors the mutable attributes of the `Dogtail` class
  (`_fh`, `current_inode`, `curr_offset`, `_counter`, `_logfile_candidates`).
* The engine methods (`_open_known_file`, `_open_first_file`, `_open`,
  `_close`, `_get_next_line`, `__next__`, `__init__`,
  `update_offset_file`, `write_offset_to_file`) are translated to pure
  state-passing functions.  Raising `StopIteration` is modelled by returning
  `none`; the `ValueError` that a malformed offset file causes during
  `__init__` is modelled by `Except.error CheckpointError.malformed`.
* `_open_known_file` and `_open_first_file` additionally return the list of
  inodes of the handles they opened and of the handles they explicitly
  closed, so that handle-lifetime properties can be stated.
-/

/-- The Python `Offset` data-class: rotation counter, inode, byte offset. -/
structure Offset where
  counter : Nat
  inode : Int
  offset : Nat
deriving DecidableEq

namespace Offset

/-- `Offset.__eq__`: compares `counter` and `offset`, ignoring `inode`. -/
def eq (a b : Offset) : Bool :=
  a.counter == b.counter && a.offset == b.offset

/-- `Offset.__lt__`. -/
def lt (a b : Offset) : Bool :=
  decide (a.counter < b.counter) ||
    (a.counter == b.counter && decide (a.offset < b.offset))

/-- `Offset.__le__`. -/
def le (a b : Offset) : Bool := lt a b || eq a b

/-- `Offset.__gt__`. -/
def gt (a b : Offset) : Bool := ! le a b

/-- `Offset.__ge__`. -/
def ge (a b : Offset) : Bool := ! le a b || eq a b

end Offset

/-- `readline` helper: consume characters up to and including the first
newline; if no newline occurs, consume everything. -/
def rlGo : List Char → List Char
  | [] => []
  | c :: cs => if c == '\n' then [c] else c :: rlGo cs

/-- `TextIO.readline` from position `p` of content `s`: returns the line read
and the stream position after the read (`tell()`). -/
def readlineFrom (s : List Char) (p : Nat) : List Char × Nat :=
  let l := rlGo (s.drop p)
  (l, p + l.length)

/-- `line.endswith("\n")`. -/
def endsWithNL (l : List Char) : Bool :=
  match l.getLast? with
  | some c => c == '\n'
  | none => false

/-- A snapshot of the file system as seen through `open`/`fstat`/`read`:
`lookup c` is the inode that opening candidate `c` yields (`none` when the
open raises `OSError`), `content i` the full content of inode `i`. -/
structure FS where
  lookup : Nat → Option Int
  content : Int → List Char

/-- An open file handle: the inode it refers to and its stream position. -/
structure Handle where
  inode : Int
  pos : Nat
deriving DecidableEq

/-- The mutable state of a `Dogtail` instance. -/
structure DogState where
  candidates : List Nat
  fh : Option Handle
  current_inode : Option Int
  curr_offset : Option Nat
  counter : Nat
deriving DecidableEq

namespace Dogtail

/-- `Dogtail._try_open`: `open` returning `None` on `OSError`. -/
def tryOpenFile (fs : FS) (c : Nat) : Option Int := fs.lookup c

/-- Loop body of `Dogtail._open_known_file`: scan the candidate list for a
file whose inode matches the checkpoint; on the first match seek to `offset`
and adopt the handle.  Also returns the inodes of the handles the scan opened
and the inodes of the handles it explicitly closed (the source closes none:
a non-matching handle is simply dropped). -/
def openKnownFileGo (fs : FS) (inode : Int) (offset : Nat) (st : DogState) :
    List Nat → DogState × List Int × List Int
  | [] => (st, [], [])
  | c :: cs =>
    match tryOpenFile fs c with
    | none => openKnownFileGo fs inode offset st cs
    | some fhIno =>
      if inode == fhIno then
        ({ st with fh := some ⟨fhIno, offset⟩, curr_offset := some offset,
                   current_inode := some fhIno }, [fhIno], [])
      else
        let r := openKnownFileGo fs inode offset st cs
        (r.1, fhIno :: r.2.1, r.2.2)

/-- `Dogtail._open_known_file`. -/
def open_known_file (fs : FS) (inode : Int) (offset : Nat) (st : DogState) :
    DogState × List Int × List Int :=
  openKnownFileGo fs inode offset st st.candidates

/-- `Dogtail._open_first_file`: try to open `candidates[0]`; abort (dropping
the freshly opened handle without closing it) when its inode equals
`current_inode`; otherwise attach to it, bump the counter and reset the
offset to `0`.  The empty-candidate case cannot occur (the source would raise
`IndexError`; the candidate list is required to be non-empty). -/
def open_first_file (fs : FS) (st : DogState) :
    DogState × List Int × List Int :=
  match st.candidates.head? with
  | none => (st, [], [])
  | some c0 =>
    match tryOpenFile fs c0 with
    | none => (st, [], [])
    | some fhIno =>
      if st.current_inode == some fhIno then
        (st, [fhIno], [])
      else
        ({ st with fh := some ⟨fhIno, 0⟩, counter := st.counter + 1,
                   curr_offset := some 0, current_inode := some fhIno },
         [fhIno], [])

/-- `Dogtail._open`: only (re)opens while no handle is attached and the
counter still equals 1. -/
def reopen (fs : FS) (st : DogState) : DogState :=
  if st.fh == none && st.counter == 1 then (open_first_file fs st).1 else st

/-- `Dogtail._close`: close the attached handle, if any; returns the inodes
of the handles explicitly closed. -/
def closeFh (st : DogState) : DogState × List Int :=
  match st.fh with
  | none => (st, [])
  | some h => ({ st with fh := none }, [h.inode])

/-- `Dogtail._get_next_line`: after the lazy `filehandle` property (which
runs `_open`), read one line from the attached handle.  A line without a
trailing newline (including the empty read at end of file) rewinds the
stream to the pre-read position and yields `none` (`StopIteration`);
otherwise `curr_offset`/`current_inode` are updated to the post-read
position and the line is returned together with an `Offset` built from the
current counter, the handle's inode and the *pre-read* stream position. -/
def get_next_line (fs : FS) (st : DogState) :
    Option (List Char × Offset) × DogState :=
  let st1 := reopen fs st
  match st1.fh with
  | none => (none, st1)
  | some h =>
    let line := (readlineFrom (fs.content h.inode) h.pos).1
    let newPos := (readlineFrom (fs.content h.inode) h.pos).2
    if endsWithNL line then
      (some (line, ⟨st1.counter, h.inode, h.pos⟩),
       { st1 with fh := some ⟨h.inode, newPos⟩, curr_offset := some newPos,
                  current_inode := some h.inode })
    else
      (none, { st1 with fh := some ⟨h.inode, h.pos⟩ })

/-- `Dogtail.__next__`: try `_get_next_line`; on `StopIteration` close the
handle and try once more (which may follow a rotation via `_open`). -/
def pull (fs : FS) (st : DogState) :
    Option (List Char × Offset) × DogState :=
  match get_next_line fs st with
  | (some r, st1) => (some r, st1)
  | (none, st1) => get_next_line fs (closeFh st1).1

/-- Python whitespace for `str.strip`. -/
def isPySpace (c : Char) : Bool :=
  c == ' ' || c == '\t' || c == '\n' || c == '\r' || c == '\x0b' || c == '\x0c'

/-- `str.strip()`. -/
def pyStrip (s : List Char) : List Char :=
  ((s.dropWhile isPySpace).reverse.dropWhile isPySpace).reverse

/-- Value of a digit string. -/
def digitsToNat (ds : List Char) : Nat :=
  ds.foldl (fun a c => a * 10 + (c.toNat - 48)) 0

/-- Parse a non-empty all-digit string. -/
def parseDigits (ds : List Char) : Option Nat :=
  if ds.isEmpty then none
  else if ds.all (fun c => c.isDigit) then some (digitsToNat ds) else none

/-- Python `int(s)` on a string: optional sign then decimal digits;
`none` models the `ValueError` raised otherwise. -/
def pyInt (s : List Char) : Option Int :=
  match pyStrip s with
  | '+' :: ds => (parseDigits ds).map (fun n => (n : Int))
  | '-' :: ds => (parseDigits ds).map (fun n => -(n : Int))
  | ds => (parseDigits ds).map (fun n => (n : Int))

/-- Iterating a Python text file yields its lines, each keeping its trailing
newline; a final fragment without a newline is yielded as well. -/
def splitLinesGo : List Char → List Char → List (List Char)
  | [], acc => if acc.isEmpty then [] else [acc.reverse]
  | c :: cs, acc =>
    if c == '\n' then (acc.reverse ++ ['\n']) :: splitLinesGo cs []
    else splitLinesGo cs (c :: acc)

/-- Split file content into Python-iteration lines. -/
def splitFileLines (s : List Char) : List (List Char) := splitLinesGo s []

/-- `inode, offset = [int(line.strip()) for line in f]`: succeeds exactly
when the content consists of exactly two integer lines. -/
def parseTwoIntLines (s : List Char) : Option (Int × Int) :=
  match (splitFileLines s).map (fun l => pyInt (pyStrip l)) with
  | [some a, some b] => some (a, b)
  | _ => none

/-- The `ValueError` escaping `Dogtail.__init__` on a malformed offset
file (failed `int(...)` or failed two-element unpacking). -/
inductive CheckpointError where
  | malformed
deriving DecidableEq

/-- Reading the offset file in `Dogtail.__init__`: the file is modelled as
`none` when missing; a present file with zero size is skipped like a missing
one; otherwise its content must parse as exactly two integer lines. -/
def readCheckpoint (file : Option String) :
    Except CheckpointError (Option (Int × Int)) :=
  match file with
  | none => .ok none
  | some s =>
    if s.length == 0 then .ok none
    else
      match parseTwoIntLines s.data with
      | some io => .ok (some io)
      | none => .error .malformed

/-- `Dogtail.__init__`: build the initial state and, when a checkpoint is
present, resume through `_open_known_file`.  The parsed offset is cast with
`toNat` for the `seek`; every checkpoint the engine itself writes is
non-negative (a negative hand-written offset would make the Python `seek`
raise, which no claim exercises). -/
def construct (fs : FS) (candidates : List Nat) (offsetFile : Option String) :
    Except CheckpointError DogState :=
  let st0 : DogState := ⟨candidates, none, none, none, 1⟩
  match readCheckpoint offsetFile with
  | .error e => .error e
  | .ok none => .ok st0
  | .ok (some (i, o)) => .ok (open_known_file fs i o.toNat st0).1

/-- `"%s" % x` for an optional integer (`None` prints as `"None"`). -/
def pyStrOfOptInt : Option Int → String
  | none => "None"
  | some n => toString n

/-- `"%s" % x` for an optional natural (`None` prints as `"None"`). -/
def pyStrOfOptNat : Option Nat → String
  | none => "None"
  | some n => toString n

/-- `Dogtail.update_offset_file`: the content written to the offset file. -/
def update_offset_file (st : DogState) : String :=
  pyStrOfOptInt st.current_inode ++ "\n" ++ pyStrOfOptNat st.curr_offset ++ "\n"

/-- `Dogtail.write_offset_to_file`: the content written for an explicit
`Offset`. -/
def write_offset_to_file (o : Offset) : String :=
  toString o.inode ++ "\n" ++ toString o.offset ++ "\n"

end Dogtail

/-- States an engine can be in: freshly constructed, or the post-state of a
`__next__` pull (the file system may change arbitrarily between steps). -/
inductive Reachable : DogState → Prop where
  | boot (fs : FS) (cands : List Nat) (file : Option String) (st : DogState) :
      Dogtail.construct fs cands file = .ok st → Reachable st
  | pull (fs : FS) (st st' : DogState) (r : Option (List Char × Offset)) :
      Reachable st → Dogtail.pull fs st = (r, st') → Reachable st'

/-- A run of an engine from state `st` to state `st'` delivering the listed
positions, in order; the file system may change arbitrarily between pulls. -/
inductive RunFrom : DogState → List Offset → DogState → Prop where
  | nil (st : DogState) : RunFrom st [] st
  | stepSome (fs : FS) (st st' st'' : DogState) (l : List Char) (o : Offset)
      (os : List Offset) :
      Dogtail.pull fs st = (some (l, o), st') → RunFrom st' os st'' →
      RunFrom st (o :: os) st''
  | stepNone (fs : FS) (st st' st'' : DogState) (os : List Offset) :
      Dogtail.pull fs st = (none, st') → RunFrom st' os st'' →
      RunFrom st os st''

section Fixtures

/-- Concrete file system: candidate 0 opens inode 10 with content `"a\nb\n"`. -/
def fsW1 : FS :=
  ⟨fun c => if c == 0 then some 10 else none,
   fun i => if i == 10 then ( "a\nb\n" ).data else []⟩

/-- The state a fresh engine starts in with candidate list `[0]`. -/
def stW0 : DogState := ⟨[0], none, none, none, 1⟩

/-- State after pulling the first line of `fsW1`. -/
def stW1 : DogState := ⟨[0], some ⟨10, 2⟩, some 10, some 2, 2⟩

/-- State after pulling the second line of `fsW1`. -/
def stW2 : DogState := ⟨[0], some ⟨10, 4⟩, some 10, some 4, 2⟩

/-- State after a further pull hits end of file: handle closed, counter 2. -/
def stW3 : DogState := ⟨[0], none, some 10, some 4, 2⟩

/-- File system after a rotation: candidate 0 now opens inode 20 with a
complete line available. -/
def fsW2 : FS :=
  ⟨fun c => if c == 0 then some 20 else none,
   fun i => if i == 20 then ( "c\n" ).data else []⟩

/-- File system with two candidates: candidate 0 opens inode 10, candidate 1
opens inode 20. -/
def fsC : FS :=
  ⟨fun c => if c == 0 then some 10 else if c == 1 then some 20 else none,
   fun _ => []⟩

/-- Fresh state with the two-element candidate list `[0, 1]`. -/
def stC0 : DogState := ⟨[0, 1], none, none, none, 1⟩

/-- File system mid-rotation: candidate 0 opens fresh inode 20 holding a
complete line, while old inode 10 ends in an unterminated fragment. -/
def fsR : FS :=
  ⟨fun c => if c == 0 then some 20 else none,
   fun i => if i == 20 then ( "c\n" ).data
            else if i == 10 then ( "x" ).data else []⟩

/-- Engine attached to inode 10 at offset 0 with counter still 1. -/
def stR : DogState := ⟨[0], some ⟨10, 0⟩, some 10, some 0, 1⟩

/-- File content ending in the unterminated fragment `"5,"`. -/
def fsP : FS :=
  ⟨fun c => if c == 0 then some 10 else none,
   fun i => if i == 10 then ( "1\n2\n5," ).data else []⟩

/-- The same file after the fragment was completed by an append. -/
def fsQ : FS :=
  ⟨fun c => if c == 0 then some 10 else none,
   fun i => if i == 10 then ( "1\n2\n5,5.5\n" ).data else []⟩

/-- Engine attached to inode 10 at offset 4 (just after `"1\n2\n"`). -/
def stP : DogState := ⟨[0], some ⟨10, 4⟩, some 10, some 4, 1⟩

end Fixtures

/-! ### Basic lemmas about the readline model -/

theorem rlGo_cons_eq (cs : List Char) : rlGo ('\n' :: cs) = ['\n'] := by
  simp [rlGo]

theorem rlGo_cons_ne {c : Char} (hc : c ≠ '\n') (cs : List Char) :
    rlGo (c :: cs) = c :: rlGo cs := by
  simp [rlGo, hc]

theorem rlGo_take (t : List Char) : rlGo t = t.take (rlGo t).length := by
  induction t with
  | nil => rfl
  | cons c cs ih =>
    by_cases hc : c = '\n'
    · subst hc; simp [rlGo_cons_eq]
    · rw [rlGo_cons_ne hc]
      simp only [List.length_cons, List.take_succ_cons, List.cons.injEq,
        true_and]
      exact ih

theorem rlGo_of_not_mem {t : List Char} (h : '\n' ∉ t) : rlGo t = t := by
  induction t with
  | nil => rfl
  | cons c cs ih =>
    simp only [List.mem_cons, not_or] at h
    rw [rlGo_cons_ne (fun hcc => h.1 hcc.symm), ih h.2]

theorem rlGo_append {t u : List Char} (h : '\n' ∉ t) :
    rlGo (t ++ u) = t ++ rlGo u := by
  induction t with
  | nil => rfl
  | cons c cs ih =>
    simp only [List.mem_cons, not_or] at h
    rw [List.cons_append, rlGo_cons_ne (fun hcc => h.1 hcc.symm), ih h.2,
      List.cons_append]

theorem endsWithNL_cons {c : Char} {l : List Char} (h : l ≠ []) :
    endsWithNL (c :: l) = endsWithNL l := by
  cases l with
  | nil => exact absurd rfl h
  | cons d ds => simp [endsWithNL, List.getLast?_cons_cons]

theorem endsWithNL_rlGo_of_mem {u : List Char} (h : '\n' ∈ u) :
    endsWithNL (rlGo u) = true := by
  induction u with
  | nil => simp at h
  | cons c cs ih =>
    by_cases hc : c = '\n'
    · subst hc; simp [rlGo_cons_eq, endsWithNL]
    · simp only [List.mem_cons] at h
      rcases h with h | h
      · exact absurd h.symm hc
      · rw [rlGo_cons_ne hc]
        have hne : rlGo cs ≠ [] := by
          intro hnil
          have hend := ih h
          rw [hnil] at hend
          simp [endsWithNL] at hend
        rw [endsWithNL_cons hne]
        exact ih h

theorem endsWithNL_false_of_not_mem {t : List Char} (h : '\n' ∉ t) :
    endsWithNL t = false := by
  induction t with
  | nil => rfl
  | cons c cs ih =>
    simp only [List.mem_cons, not_or] at h
    cases cs with
    | nil =>
      have hc : ¬c = '\n' := fun hcc => h.1 hcc.symm
      simp [endsWithNL, hc]
    | cons d ds =>
      rw [endsWithNL_cons (by simp)]
      exact ih h.2

theorem length_pos_of_endsWithNL {l : List Char} (h : endsWithNL l = true) :
    0 < l.length := by
  cases l with
  | nil => simp [endsWithNL] at h
  | cons c cs => simp

/-! ### A lexicographic bound on (counter, position) pairs -/

/-- Strict lexicographic order on (counter, offset) pairs. -/
def pLt (a b : Nat × Nat) : Prop := a.1 < b.1 ∨ (a.1 = b.1 ∧ a.2 < b.2)

/-- Lexicographic order on (counter, offset) pairs. -/
def pLe (a b : Nat × Nat) : Prop := a.1 < b.1 ∨ (a.1 = b.1 ∧ a.2 ≤ b.2)

/-- The least (counter, offset) pair any future successful pull can return:
with an attached handle, the current counter and stream position; otherwise
any future line needs a fresh attach, which bumps the counter. -/
def bnd (st : DogState) : Nat × Nat :=
  match st.fh with
  | some h => (st.counter, h.pos)
  | none => (st.counter + 1, 0)

theorem pLe_refl (a : Nat × Nat) : pLe a a := by unfold pLe; omega

theorem pLe_trans {a b c : Nat × Nat} (h1 : pLe a b) (h2 : pLe b c) :
    pLe a c := by unfold pLe at *; omega

theorem pLe_of_pLt {a b : Nat × Nat} (h : pLt a b) : pLe a b := by
  unfold pLt at h; unfold pLe; omega

theorem pLt_of_pLt_of_pLe {a b c : Nat × Nat} (h1 : pLt a b) (h2 : pLe b c) :
    pLt a c := by unfold pLt at *; unfold pLe at h2; omega

theorem pLt_of_pLe_of_pLt {a b c : Nat × Nat} (h1 : pLe a b) (h2 : pLt b c) :
    pLt a c := by unfold pLe at h1; unfold pLt at *; omega

theorem Offset.lt_of_pLt {a b : Offset}
    (h : pLt (a.counter, a.offset) (b.counter, b.offset)) :
    Offset.lt a b = true := by
  unfold pLt at h
  simp only [Offset.lt, Bool.or_eq_true, decide_eq_true_eq, Bool.and_eq_true,
    beq_iff_eq]
  omega

/-! ### Structure and state-update helpers -/

theorem fh_update_eta {st : DogState} {h : Handle} (hfh : st.fh = some h) :
    { st with fh := some ⟨h.inode, h.pos⟩ } = st := by
  cases st
  cases h
  simp_all

theorem fh_none_update_eta {st : DogState} (hfh : st.fh = none) :
    { st with fh := (none : Option Handle) } = st := by
  cases st
  simp_all

theorem closeFh_fst (st : DogState) :
    (Dogtail.closeFh st).1 = { st with fh := none } := by
  cases hfh : st.fh with
  | none =>
    unfold Dogtail.closeFh
    rw [hfh, fh_none_update_eta hfh]
  | some h =>
    unfold Dogtail.closeFh
    rw [hfh]

/-! ### Characterization of `_open` (the lazy reopen) -/

theorem reopen_of_fh_some {fs : FS} {st : DogState} {h : Handle}
    (hfh : st.fh = some h) : Dogtail.reopen fs st = st := by
  unfold Dogtail.reopen
  rw [if_neg]
  simp [Bool.and_eq_true, hfh]

theorem reopen_of_counter_ne {fs : FS} {st : DogState}
    (hc : st.counter ≠ 1) : Dogtail.reopen fs st = st := by
  unfold Dogtail.reopen
  rw [if_neg]
  simp [Bool.and_eq_true, hc]

theorem reopen_head_none {fs : FS} {st : DogState}
    (hhead : st.candidates.head? = none) : Dogtail.reopen fs st = st := by
  unfold Dogtail.reopen Dogtail.open_first_file
  split
  · rw [hhead]
  · rfl

theorem reopen_lookup_none {fs : FS} {st : DogState} {c0 : Nat}
    (hhead : st.candidates.head? = some c0) (hlk : fs.lookup c0 = none) :
    Dogtail.reopen fs st = st := by
  unfold Dogtail.reopen Dogtail.open_first_file Dogtail.tryOpenFile
  split
  · rw [hhead]
    simp only [hlk]
  · rfl

theorem reopen_abort {fs : FS} {st : DogState} {c0 : Nat} {ino : Int}
    (hhead : st.candidates.head? = some c0) (hlk : fs.lookup c0 = some ino)
    (hci : st.current_inode = some ino) : Dogtail.reopen fs st = st := by
  unfold Dogtail.reopen Dogtail.open_first_file Dogtail.tryOpenFile
  split
  · rw [hhead]
    simp only [hlk]
    rw [if_pos]
    simp [hci]
  · rfl

theorem reopen_attach {fs : FS} {st : DogState} {c0 : Nat} {ino : Int}
    (hfh : st.fh = none) (hc : st.counter = 1)
    (hhead : st.candidates.head? = some c0) (hlk : fs.lookup c0 = some ino)
    (hni : st.current_inode ≠ some ino) :
    Dogtail.reopen fs st =
      { st with fh := some ⟨ino, 0⟩, counter := st.counter + 1,
                curr_offset := some 0, current_inode := some ino } := by
  unfold Dogtail.reopen Dogtail.open_first_file Dogtail.tryOpenFile
  rw [if_pos (by simp [Bool.and_eq_true, hfh, hc])]
  rw [hhead]
  simp only [hlk]
  rw [if_neg]
  simp [hni]

theorem reopen_cases (fs : FS) (st : DogState) :
    Dogtail.reopen fs st = st ∨
      (st.fh = none ∧ st.counter = 1 ∧ ∃ c0 ino,
        st.candidates.head? = some c0 ∧ fs.lookup c0 = some ino ∧
        st.current_inode ≠ some ino ∧
        Dogtail.reopen fs st =
          { st with fh := some ⟨ino, 0⟩, counter := st.counter + 1,
                    curr_offset := some 0, current_inode := some ino }) := by
  rcases hfh : st.fh with _ | h
  · by_cases hc : st.counter = 1
    · cases hhead : st.candidates.head? with
      | none => exact Or.inl (reopen_head_none hhead)
      | some c0 =>
        cases hlk : fs.lookup c0 with
        | none => exact Or.inl (reopen_lookup_none hhead hlk)
        | some ino =>
          by_cases hci : st.current_inode = some ino
          · exact Or.inl (reopen_abort hhead hlk hci)
          · exact Or.inr ⟨rfl, hc, c0, ino, rfl, hlk, hci,
              reopen_attach hfh hc hhead hlk hci⟩
    · exact Or.inl (reopen_of_counter_ne hc)
  · exact Or.inl (reopen_of_fh_some hfh)

/-! ### Characterization of `_get_next_line` -/

theorem gnl_of_fh_some_success {fs : FS} {st : DogState} {h : Handle}
    (hfh : st.fh = some h)
    (hend : endsWithNL (rlGo ((fs.content h.inode).drop h.pos)) = true) :
    Dogtail.get_next_line fs st =
      (some (rlGo ((fs.content h.inode).drop h.pos),
             ⟨st.counter, h.inode, h.pos⟩),
       { st with
         fh := some ⟨h.inode,
                     h.pos + (rlGo ((fs.content h.inode).drop h.pos)).length⟩,
         curr_offset :=
           some (h.pos + (rlGo ((fs.content h.inode).drop h.pos)).length),
         current_inode := some h.inode }) := by
  unfold Dogtail.get_next_line readlineFrom
  rw [reopen_of_fh_some hfh]
  simp only [hfh]
  rw [if_pos hend]

theorem gnl_of_fh_some_fail {fs : FS} {st : DogState} {h : Handle}
    (hfh : st.fh = some h)
    (hend : endsWithNL (rlGo ((fs.content h.inode).drop h.pos)) = false) :
    Dogtail.get_next_line fs st = (none, st) := by
  unfold Dogtail.get_next_line readlineFrom
  rw [reopen_of_fh_some hfh]
  simp only [hfh]
  rw [if_neg (by simp [hend]), fh_update_eta hfh]

theorem gnl_of_reopen_self {fs : FS} {st : DogState} (hfh : st.fh = none)
    (hre : Dogtail.reopen fs st = st) :
    Dogtail.get_next_line fs st = (none, st) := by
  unfold Dogtail.get_next_line
  rw [hre]
  simp only [hfh]

theorem gnl_attach_success {fs : FS} {st : DogState} {ino : Int}
    (hre : Dogtail.reopen fs st =
      { st with fh := some ⟨ino, 0⟩, counter := st.counter + 1,
                curr_offset := some 0, current_inode := some ino })
    (hend : endsWithNL (rlGo (fs.content ino)) = true) :
    Dogtail.get_next_line fs st =
      (some (rlGo (fs.content ino), ⟨st.counter + 1, ino, 0⟩),
       { st with fh := some ⟨ino, (rlGo (fs.content ino)).length⟩,
                 counter := st.counter + 1,
                 curr_offset := some ((rlGo (fs.content ino)).length),
                 current_inode := some ino }) := by
  unfold Dogtail.get_next_line readlineFrom
  rw [hre]
  simp only [List.drop_zero]
  rw [if_pos hend]
  simp

theorem gnl_attach_fail {fs : FS} {st : DogState} {ino : Int}
    (hre : Dogtail.reopen fs st =
      { st with fh := some ⟨ino, 0⟩, counter := st.counter + 1,
                curr_offset := some 0, current_inode := some ino })
    (hend : endsWithNL (rlGo (fs.content ino)) = false) :
    Dogtail.get_next_line fs st =
      (none, { st with fh := some ⟨ino, 0⟩, counter := st.counter + 1,
                       curr_offset := some 0, current_inode := some ino }) := by
  unfold Dogtail.get_next_line readlineFrom
  rw [hre]
  simp only [List.drop_zero]
  rw [if_neg (by simp [hend])]

/-- Exhaustive outcome analysis of `_get_next_line`. -/
theorem gnl_out (fs : FS) (st : DogState) :
    (∃ h : Handle, st.fh = some h ∧
       endsWithNL (rlGo ((fs.content h.inode).drop h.pos)) = true ∧
       Dogtail.get_next_line fs st =
         (some (rlGo ((fs.content h.inode).drop h.pos),
                ⟨st.counter, h.inode, h.pos⟩),
          { st with
            fh := some ⟨h.inode,
                    h.pos + (rlGo ((fs.content h.inode).drop h.pos)).length⟩,
            curr_offset :=
              some (h.pos + (rlGo ((fs.content h.inode).drop h.pos)).length),
            current_inode := some h.inode })) ∨
    Dogtail.get_next_line fs st = (none, st) ∨
    (st.fh = none ∧ st.counter = 1 ∧ ∃ c0 ino,
       st.candidates.head? = some c0 ∧ fs.lookup c0 = some ino ∧
       st.current_inode ≠ some ino ∧
       ((endsWithNL (rlGo (fs.content ino)) = true ∧
         Dogtail.get_next_line fs st =
           (some (rlGo (fs.content ino), ⟨st.counter + 1, ino, 0⟩),
            { st with fh := some ⟨ino, (rlGo (fs.content ino)).length⟩,
                      counter := st.counter + 1,
                      curr_offset := some ((rlGo (fs.content ino)).length),
                      current_inode := some ino })) ∨
        (endsWithNL (rlGo (fs.content ino)) = false ∧
         Dogtail.get_next_line fs st =
           (none, { st with fh := some ⟨ino, 0⟩, counter := st.counter + 1,
                            curr_offset := some 0,
                            current_inode := some ino })))) := by
  rcases reopen_cases fs st with hre | ⟨hfh, hc, c0, ino, hhead, hlk, hni, hre⟩
  · rcases hfh : st.fh with _ | h
    · exact Or.inr (Or.inl (gnl_of_reopen_self hfh hre))
    · by_cases hend :
        endsWithNL (rlGo ((fs.content h.inode).drop h.pos)) = true
      · exact Or.inl ⟨h, rfl, hend, gnl_of_fh_some_success hfh hend⟩
      · exact Or.inr (Or.inl (gnl_of_fh_some_fail hfh
          (Bool.eq_false_iff.mpr hend)))
  · by_cases hend : endsWithNL (rlGo (fs.content ino)) = true
    · exact Or.inr (Or.inr ⟨hfh, hc, c0, ino, hhead, hlk, hni,
        Or.inl ⟨hend, gnl_attach_success hre hend⟩⟩)
    · exact Or.inr (Or.inr ⟨hfh, hc, c0, ino, hhead, hlk, hni,
        Or.inr ⟨Bool.eq_false_iff.mpr hend,
          gnl_attach_fail hre (Bool.eq_false_iff.mpr hend)⟩⟩)

theorem pull_of_gnl_some {fs : FS} {st st1 : DogState}
    {r : List Char × Offset}
    (hg : Dogtail.get_next_line fs st = (some r, st1)) :
    Dogtail.pull fs st = (some r, st1) := by
  unfold Dogtail.pull
  rw [hg]

theorem pull_of_gnl_none {fs : FS} {st st1 : DogState}
    (hg : Dogtail.get_next_line fs st = (none, st1)) :
    Dogtail.pull fs st = Dogtail.get_next_line fs (Dogtail.closeFh st1).1 := by
  unfold Dogtail.pull
  rw [hg]

/-- Everything a successful `__next__` pull guarantees: the returned
`Offset` carries the pre-read position of the line within the file it was
read from, the post-read bookkeeping (`curr_offset`, handle position) sits
exactly one line further, and the (counter, offset) pair is sandwiched
between the bounds of the pre- and post-states. -/
theorem pull_some_spec {fs : FS} {st st' : DogState} {l : List Char}
    {o : Offset} (hp : Dogtail.pull fs st = (some (l, o), st')) :
    pLe (bnd st) (o.counter, o.offset) ∧
    pLt (o.counter, o.offset) (bnd st') ∧
    st'.counter = o.counter ∧
    st'.current_inode = some o.inode ∧
    st'.curr_offset = some (o.offset + l.length) ∧
    st'.fh = some ⟨o.inode, o.offset + l.length⟩ ∧
    endsWithNL l = true ∧
    0 < l.length ∧
    l = ((fs.content o.inode).drop o.offset).take l.length ∧
    st'.candidates = st.candidates ∧
    (o.counter = st.counter ∨
      (st.counter = 1 ∧ o.counter = st.counter + 1 ∧
        st.current_inode ≠ some o.inode)) := by
  rcases gnl_out fs st with ⟨h, hfh, hend, heq⟩ | heq |
    ⟨hfh, hc, c0, ino, hhead, hlk, hni, ⟨hend, heq⟩ | ⟨hend, heq⟩⟩
  · have hpe := (pull_of_gnl_some heq).symm.trans hp
    simp only [Prod.mk.injEq, Option.some.injEq] at hpe
    obtain ⟨⟨hl, ho⟩, hst⟩ := hpe
    subst hl ho hst
    have hlen := length_pos_of_endsWithNL hend
    refine ⟨?_, ?_, by simp, by simp, by simp, by simp, hend, hlen,
      rlGo_take _, by simp, Or.inl rfl⟩
    · unfold bnd
      rw [hfh]
      exact pLe_refl _
    · unfold bnd
      simp only
      unfold pLt
      simp
      omega
  · -- first read failed without attaching: close, then retry
    have hp2 : Dogtail.pull fs st =
        Dogtail.get_next_line fs { st with fh := none } := by
      rw [pull_of_gnl_none heq, closeFh_fst]
    rcases gnl_out fs { st with fh := none } with
      ⟨h2, hfh2, _, _⟩ | heq2 |
      ⟨_, hc2, c0, ino, hhead2, hlk2, hni2, ⟨hend2, heq2⟩ | ⟨hend2, heq2⟩⟩
    · simp at hfh2
    · rw [hp2, heq2] at hp
      simp at hp
    · rw [hp2, heq2] at hp
      simp only [Prod.mk.injEq, Option.some.injEq] at hp
      obtain ⟨⟨hl, ho⟩, hst⟩ := hp
      subst hl ho hst
      simp only at hc2 hni2 hhead2
      have hlen := length_pos_of_endsWithNL hend2
      refine ⟨?_, ?_, by simp, by simp, by simp, by simp, hend2, hlen,
        by simpa using rlGo_take (fs.content ino), by simp,
        Or.inr ⟨hc2, by simp, by simpa using hni2⟩⟩
      · unfold bnd
        rcases hfh : st.fh with _ | h
        · simp only
          unfold pLe
          simp
        · simp only
          unfold pLe
          simp
      · unfold bnd
        simp only
        unfold pLt
        simp
        omega
    · rw [hp2, heq2] at hp
      simp at hp
  · -- attach on the first read, success
    have hpe := (pull_of_gnl_some heq).symm.trans hp
    simp only [Prod.mk.injEq, Option.some.injEq] at hpe
    obtain ⟨⟨hl, ho⟩, hst⟩ := hpe
    subst hl ho hst
    have hlen := length_pos_of_endsWithNL hend
    refine ⟨?_, ?_, by simp, by simp, by simp, by simp, hend, hlen,
      by simpa using rlGo_take (fs.content ino), by simp,
      Or.inr ⟨hc, by simp, hni⟩⟩
    · unfold bnd
      rw [hfh]
      exact pLe_refl _
    · unfold bnd
      simp only
      unfold pLt
      simp
      omega
  · -- attach on the first read, new file empty: close, retry is dead
    have hp2 : Dogtail.pull fs st =
        Dogtail.get_next_line fs
          { st with fh := none, counter := st.counter + 1,
                    curr_offset := some 0, current_inode := some ino } := by
      rw [pull_of_gnl_none heq, closeFh_fst]
    have hdead : Dogtail.get_next_line fs
        { st with fh := none, counter := st.counter + 1,
                  curr_offset := some 0, current_inode := some ino } =
        (none, { st with fh := none, counter := st.counter + 1,
                         curr_offset := some 0, current_inode := some ino }) := by
      exact gnl_of_reopen_self rfl (reopen_of_counter_ne (by simp [hc]))
    rw [hp2, hdead] at hp
    simp at hp

/-- What a pull that yields no line guarantees: the bound never decreases,
the candidate list is untouched, and the counter either stays put together
with `current_inode`, or records a single rotation bump. -/
theorem pull_none_spec {fs : FS} {st st' : DogState}
    (hp : Dogtail.pull fs st = (none, st')) :
    pLe (bnd st) (bnd st') ∧
    st'.candidates = st.candidates ∧
    ((st'.counter = st.counter ∧ st'.current_inode = st.current_inode) ∨
      (st.counter = 1 ∧ st'.counter = st.counter + 1 ∧ ∃ ino,
        st'.current_inode = some ino ∧ st.current_inode ≠ some ino)) := by
  rcases gnl_out fs st with ⟨h, hfh, hend, heq⟩ | heq |
    ⟨hfh, hc, c0, ino, hhead, hlk, hni, ⟨hend, heq⟩ | ⟨hend, heq⟩⟩
  · rw [pull_of_gnl_some heq] at hp
    simp at hp
  · have hp2 : Dogtail.pull fs st =
        Dogtail.get_next_line fs { st with fh := none } := by
      rw [pull_of_gnl_none heq, closeFh_fst]
    rcases gnl_out fs { st with fh := none } with
      ⟨h2, hfh2, _, _⟩ | heq2 |
      ⟨_, hc2, c0, ino, hhead2, hlk2, hni2, ⟨hend2, heq2⟩ | ⟨hend2, heq2⟩⟩
    · simp at hfh2
    · rw [hp2, heq2] at hp
      simp only [Prod.mk.injEq] at hp
      obtain ⟨-, hst⟩ := hp
      subst hst
      refine ⟨?_, by simp, Or.inl ⟨by simp, by simp⟩⟩
      unfold bnd
      rcases hfh : st.fh with _ | h
      · simp only
        unfold pLe
        simp
      · simp only
        unfold pLe
        simp
    · rw [hp2, heq2] at hp
      simp at hp
    · rw [hp2, heq2] at hp
      simp only [Prod.mk.injEq] at hp
      obtain ⟨-, hst⟩ := hp
      subst hst
      simp only at hc2 hni2
      refine ⟨?_, by simp, Or.inr ⟨hc2, by simp, ino, by simp,
        by simpa using hni2⟩⟩
      unfold bnd
      rcases hfh : st.fh with _ | h
      · simp only
        unfold pLe
        simp
      · simp only
        unfold pLe
        simp
  · rw [pull_of_gnl_some heq] at hp
    simp at hp
  · have hp2 : Dogtail.pull fs st =
        Dogtail.get_next_line fs
          { st with fh := none, counter := st.counter + 1,
                    curr_offset := some 0, current_inode := some ino } := by
      rw [pull_of_gnl_none heq, closeFh_fst]
    have hdead : Dogtail.get_next_line fs
        { st with fh := none, counter := st.counter + 1,
                  curr_offset := some 0, current_inode := some ino } =
        (none, { st with fh := none, counter := st.counter + 1,
                         curr_offset := some 0, current_inode := some ino }) := by
      exact gnl_of_reopen_self rfl (reopen_of_counter_ne (by simp [hc]))
    rw [hp2, hdead] at hp
    simp only [Prod.mk.injEq] at hp
    obtain ⟨-, hst⟩ := hp
    subst hst
    refine ⟨?_, by simp, Or.inr ⟨hc, by simp, ino, by simp, hni⟩⟩
    unfold bnd
    rw [hfh]
    simp only
    unfold pLe
    simp

/-! ### Characterization of resume (`__init__` / `_open_known_file`) -/

theorem okfGo_closed_nil (fs : FS) (i : Int) (off : Nat) (st : DogState) :
    ∀ cs : List Nat, (Dogtail.openKnownFileGo fs i off st cs).2.2 = [] := by
  intro cs
  induction cs with
  | nil => rfl
  | cons c cs ih =>
    unfold Dogtail.openKnownFileGo Dogtail.tryOpenFile
    cases fs.lookup c with
    | none => simpa using ih
    | some fhIno =>
      by_cases hi : i == fhIno
      · simp [hi]
      · simpa [hi] using ih

theorem okfGo_fst (fs : FS) (i : Int) (off : Nat) (st : DogState) :
    ∀ cs : List Nat,
      (Dogtail.openKnownFileGo fs i off st cs).1 = st ∨
      (Dogtail.openKnownFileGo fs i off st cs).1 =
        { st with fh := some ⟨i, off⟩, curr_offset := some off,
                  current_inode := some i } := by
  intro cs
  induction cs with
  | nil => exact Or.inl rfl
  | cons c cs ih =>
    unfold Dogtail.openKnownFileGo Dogtail.tryOpenFile
    cases fs.lookup c with
    | none => simpa using ih
    | some fhIno =>
      by_cases hi : i = fhIno
      · subst hi
        simp
      · simp only [beq_iff_eq, if_neg hi]
        simpa using ih

theorem okfGo_fst_no_match (fs : FS) (i : Int) (off : Nat) (st : DogState) :
    ∀ cs : List Nat,
      (∀ c ∈ cs, ∀ ino, fs.lookup c = some ino → ino ≠ i) →
      (Dogtail.openKnownFileGo fs i off st cs).1 = st := by
  intro cs
  induction cs with
  | nil => intro _; rfl
  | cons c cs ih =>
    intro hno
    unfold Dogtail.openKnownFileGo Dogtail.tryOpenFile
    cases hlk : fs.lookup c with
    | none =>
      exact ih fun c' hc' => hno c' (List.mem_cons_of_mem _ hc')
    | some fhIno =>
      have hne : i ≠ fhIno :=
        fun h => hno c (List.mem_cons_self _ _) fhIno hlk h.symm
      simp only [beq_iff_eq, if_neg hne]
      exact ih fun c' hc' => hno c' (List.mem_cons_of_mem _ hc')

theorem construct_ok_basic {fs : FS} {cands : List Nat} {file : Option String}
    {st : DogState} (h : Dogtail.construct fs cands file = .ok st) :
    st.counter = 1 ∧ st.candidates = cands := by
  unfold Dogtail.construct at h
  cases hrc : Dogtail.readCheckpoint file with
  | error e => rw [hrc] at h; simp at h
  | ok v =>
    rw [hrc] at h
    cases v with
    | none =>
      simp only [Except.ok.injEq] at h
      subst h
      exact ⟨rfl, rfl⟩
    | some io =>
      obtain ⟨i, o⟩ := io
      simp only [Except.ok.injEq] at h
      subst h
      rcases okfGo_fst fs i o.toNat ⟨cands, none, none, none, 1⟩ cands with
        he | he <;> simp [Dogtail.open_known_file, he]

/-! ### Claim theorems -/

/-- C7: Position comparison ignores storageId entirely: equality holds iff
counter and offset agree, `<` is the lexicographic order on
(counter, offset), and the derived `<=`, `>`, `>=` operators are mutually
consistent with this total order; in particular two Positions with
different inodes compare equal whenever counter and offset coincide. -/
theorem offset_order_spec (a b : Offset) :
    (Offset.eq a b = true ↔ (a.counter = b.counter ∧ a.offset = b.offset)) ∧
    (Offset.lt a b = true ↔
      (a.counter < b.counter ∨ (a.counter = b.counter ∧ a.offset < b.offset))) ∧
    (Offset.le a b = true ↔ (Offset.lt a b = true ∨ Offset.eq a b = true)) ∧
    (Offset.gt a b = true ↔ Offset.lt b a = true) ∧
    (Offset.ge a b = true ↔ Offset.le b a = true) ∧
    (a.counter = b.counter → a.offset = b.offset → Offset.eq a b = true) := by
  obtain ⟨ac, ai, ao⟩ := a
  obtain ⟨bc, bi, bo⟩ := b
  simp only [Offset.eq, Offset.lt, Offset.le, Offset.gt, Offset.ge,
    Bool.or_eq_true, Bool.and_eq_true, Bool.not_eq_true', Bool.or_eq_false_iff,
    Bool.and_eq_false_iff, decide_eq_true_eq, decide_eq_false_iff_not,
    beq_iff_eq, beq_eq_false_iff_ne, ne_eq]
  refine ⟨trivial, trivial, trivial, ?_, ?_, ?_⟩ <;> omega

/-- Witness for C7 at a concrete input: two Positions with different inodes
(5 and 9) but equal counter and offset compare equal. -/
theorem offset_order_spec_witness :
    Offset.eq ⟨1, 5, 7⟩ ⟨1, 9, 7⟩ = true :=
  (offset_order_spec ⟨1, 5, 7⟩ ⟨1, 9, 7⟩).2.2.2.2.2 rfl rfl

/-- C10: calling `update_offset_file` on an engine that has not yet returned
any line (both `current_inode` and `curr_offset` still unset) writes the
literal text `"None\nNone\n"` to the offset file, and constructing a new
engine from that checkpoint fails with a parse error instead of treating
the checkpoint as absent. -/
theorem update_offset_none_roundtrip (st : DogState)
    (hci : st.current_inode = none) (hco : st.curr_offset = none) :
    Dogtail.update_offset_file st = "None\nNone\n" ∧
    ∀ fs cands,
      Dogtail.construct fs cands (some (Dogtail.update_offset_file st)) =
        .error .malformed := by
  have hu : Dogtail.update_offset_file st = "None\nNone\n" := by
    unfold Dogtail.update_offset_file
    rw [hci, hco]
    rfl
  refine ⟨hu, fun fs cands => ?_⟩
  rw [hu]
  rfl

/-- Witness for C10 at the concrete fresh state `stW0`. -/
theorem update_offset_none_roundtrip_witness :
    Dogtail.update_offset_file stW0 = "None\nNone\n" ∧
    Dogtail.construct fsW1 [0] (some "None\nNone\n") = .error .malformed := by
  obtain ⟨h1, h2⟩ := update_offset_none_roundtrip stW0 rfl rfl
  refine ⟨h1, ?_⟩
  rw [← h1]
  exact h2 fsW1 [0]

/-- C5: construction treats a missing or zero-length checkpoint file as a
fresh start (no error, no resume), and `readCheckpoint` reports no
checkpoint exactly in those two cases; a non-empty file that does not
consist of exactly two integer lines makes construction fail with the
malformed-checkpoint error instead of silently defaulting to a fresh
start, and a well-formed file yields its two integers. -/
theorem checkpoint_read_spec :
    (∀ fs cands, Dogtail.construct fs cands none =
      .ok ⟨cands, none, none, none, 1⟩) ∧
    (∀ fs cands s, s.length = 0 →
      Dogtail.construct fs cands (some s) =
        .ok ⟨cands, none, none, none, 1⟩) ∧
    (∀ file, Dogtail.readCheckpoint file = .ok none ↔
      (file = none ∨ ∃ s, file = some s ∧ s.length = 0)) ∧
    (∀ s, s.length ≠ 0 → Dogtail.parseTwoIntLines s.data = none →
      Dogtail.readCheckpoint (some s) = .error .malformed ∧
      ∀ fs cands,
        Dogtail.construct fs cands (some s) = .error .malformed) ∧
    (∀ s i o, s.length ≠ 0 → Dogtail.parseTwoIntLines s.data = some (i, o) →
      Dogtail.readCheckpoint (some s) = .ok (some (i, o))) := by
  refine ⟨fun fs cands => rfl, ?_, ?_, ?_, ?_⟩
  · intro fs cands s hlen
    simp only [Dogtail.construct, Dogtail.readCheckpoint]
    rw [if_pos (by simp [hlen])]
  · intro file
    cases file with
    | none => simp [Dogtail.readCheckpoint]
    | some s =>
      simp only [Dogtail.readCheckpoint]
      by_cases hlen : s.length = 0
      · rw [if_pos (by simp [hlen])]
        simp [hlen]
      · rw [if_neg (by simp [hlen])]
        cases hpp : Dogtail.parseTwoIntLines s.data with
        | none => simp [hlen]
        | some io => simp [hlen]
  · intro s hlen hpp
    have hrc : Dogtail.readCheckpoint (some s) = .error .malformed := by
      simp only [Dogtail.readCheckpoint]
      rw [if_neg (by simp [hlen]), hpp]
    refine ⟨hrc, fun fs cands => ?_⟩
    simp only [Dogtail.construct]
    rw [hrc]
  · intro s i o hlen hpp
    simp only [Dogtail.readCheckpoint]
    rw [if_neg (by simp [hlen]), hpp]

/-- Witness for C5 at the concrete malformed file content `"x"`: a one-line
non-integer checkpoint makes both the read and the construction fail. -/
theorem checkpoint_read_spec_witness :
    Dogtail.readCheckpoint (some "x") = .error .malformed ∧
    Dogtail.construct fsW1 [0] (some "x") = .error .malformed := by
  obtain ⟨h1, h2⟩ := checkpoint_read_spec.2.2.2.1 "x" (by decide) rfl
  exact ⟨h1, h2 fsW1 [0]⟩

/-- C1 is false as stated: on the first pull of a fresh engine over a file
starting with the line `"a\n"`, the returned Position carries byteOffset 0
— the offset of the line's first byte — while the post-terminator position,
to which `curr_offset` (activeOffset) is advanced, is 2; the returned
byteOffset does not equal the post-terminator position. -/
theorem position_offset_not_post_terminator :
    Dogtail.pull fsW1 stW0 = (some (( "a\n" ).data, ⟨2, 10, 0⟩), stW1) ∧
    stW1.curr_offset = some 2 ∧
    (⟨2, 10, 0⟩ : Offset).offset = 0 ∧
    (0 : Nat) ≠ 2 := by
  refine ⟨by decide, rfl, rfl, by decide⟩

/-- C1 (amended): on every successful pull, the returned Position's
byteOffset is the byte offset of the *first* byte of the returned line (the
pre-read position) in the file identified by its inode, while the engine's
activeOffset (`curr_offset`) and the handle are advanced to the strictly
larger post-terminator position `byteOffset + line.length`; the Position
carries the current sequence counter. -/
theorem pull_position_pre_read (fs : FS) (st st' : DogState) (l : List Char)
    (o : Offset) (hp : Dogtail.pull fs st = (some (l, o), st')) :
    l = ((fs.content o.inode).drop o.offset).take l.length ∧
    endsWithNL l = true ∧
    0 < l.length ∧
    st'.curr_offset = some (o.offset + l.length) ∧
    st'.fh = some ⟨o.inode, o.offset + l.length⟩ ∧
    st'.current_inode = some o.inode ∧
    o.counter = st'.counter ∧
    o.offset < o.offset + l.length := by
  obtain ⟨-, -, hcnt, hci, hco, hfh, hend, hlen, htake, -, -⟩ :=
    pull_some_spec hp
  exact ⟨htake, hend, hlen, hco, hfh, hci, hcnt.symm, by omega⟩

/-- Witness for the amended C1 at the concrete first pull of `fsW1`. -/
theorem pull_position_pre_read_witness :
    ( "a\n" ).data =
      ((fsW1.content (10 : Int)).drop 0).take (( "a\n" ).data).length ∧
    stW1.curr_offset = some (0 + (( "a\n" ).data).length) := by
  obtain ⟨h1, -, -, h4, -⟩ :=
    pull_position_pre_read fsW1 stW0 stW1 (( "a\n" ).data) ⟨2, 10, 0⟩
      (by decide)
  exact ⟨h1, h4⟩

/-- C2 is false as stated: the rotation-follow/reopen attempt is *not* made
from every reachable engine state.  Concretely, boot a fresh engine on
`fsW1`, pull its two lines and pull once more (reaching `stW3`, where the
counter is 2 and the handle closed) — all reachable steps; then, even
though candidate 0 now opens inode 20 (different from the just-closed
handle's inode 10) with a complete line `"c\n"` available, a pull on
`fsW2` returns no line and leaves the state unchanged: no reopen happens. -/
theorem rotation_follow_not_unlimited :
    Dogtail.construct fsW1 [0] none = .ok stW0 ∧
    Dogtail.pull fsW1 stW0 = (some (( "a\n" ).data, ⟨2, 10, 0⟩), stW1) ∧
    Dogtail.pull fsW1 stW1 = (some (( "b\n" ).data, ⟨2, 10, 2⟩), stW2) ∧
    Dogtail.pull fsW1 stW2 = (none, stW3) ∧
    stW3.counter = 2 ∧ stW3.fh = none ∧
    fsW2.lookup 0 = some 20 ∧ (20 : Int) ≠ 10 ∧
    endsWithNL (rlGo (fsW2.content 20)) = true ∧
    Dogtail.pull fsW2 stW3 = (none, stW3) := by
  refine ⟨rfl, by decide, by decide, by decide, rfl, rfl, rfl, by decide,
    by decide, by decide⟩

/-- C2 (amended): the close-and-reopen rotation follow happens on a pull
only while the sequence counter is still 1: in that case a pull whose
current handle yields no complete line closes it, opens candidate 0, and —
when the fresh inode differs — attaches, bumps the counter to 2, resets
the offset to 0 and immediately retries the read on the new file.  Once
the counter is no longer 1, a pull with no open handle reports no line and
leaves the state exactly unchanged, attempting no reopen. -/
theorem rotation_follow_only_while_counter_one :
    (∀ fs st (h : Handle) c0 ino2, st.counter = 1 → st.fh = some h →
      st.current_inode = some h.inode →
      endsWithNL (rlGo ((fs.content h.inode).drop h.pos)) = false →
      st.candidates.head? = some c0 → fs.lookup c0 = some ino2 →
      ino2 ≠ h.inode →
      endsWithNL (rlGo (fs.content ino2)) = true →
      Dogtail.pull fs st =
        (some (rlGo (fs.content ino2), ⟨2, ino2, 0⟩),
         { st with fh := some ⟨ino2, (rlGo (fs.content ino2)).length⟩,
                   counter := 2,
                   curr_offset := some ((rlGo (fs.content ino2)).length),
                   current_inode := some ino2 })) ∧
    (∀ fs st, st.counter ≠ 1 → st.fh = none →
      Dogtail.pull fs st = (none, st)) := by
  constructor
  · intro fs st h c0 ino2 hc hfh hci hend1 hhead hlk hne hend2
    have hg1 : Dogtail.get_next_line fs st = (none, st) :=
      gnl_of_fh_some_fail hfh hend1
    have hp2 : Dogtail.pull fs st =
        Dogtail.get_next_line fs { st with fh := none } := by
      rw [pull_of_gnl_none hg1, closeFh_fst]
    have hre : Dogtail.reopen fs { st with fh := none } =
        { { st with fh := none } with
          fh := some ⟨ino2, 0⟩, counter := { st with fh := none }.counter + 1,
          curr_offset := some 0, current_inode := some ino2 } := by
      refine reopen_attach rfl (by simpa using hc) (by simpa using hhead)
        hlk ?_
      simp only [hci, Option.some.injEq]
      exact fun hh => hne (Option.some.inj hh).symm
    have hg2 := gnl_attach_success hre hend2
    rw [hp2, hg2]
    simp only [hc]
  · intro fs st hc hfh
    have hg1 : Dogtail.get_next_line fs st = (none, st) :=
      gnl_of_reopen_self hfh (reopen_of_counter_ne hc)
    have hp2 : Dogtail.pull fs st =
        Dogtail.get_next_line fs { st with fh := none } := by
      rw [pull_of_gnl_none hg1, closeFh_fst]
    rw [hp2, fh_none_update_eta hfh, hg1]

/-- Witness for the amended C2: mid-rotation (`fsR`), an engine attached to
old inode 10 with only an unterminated fragment left follows the rotation
to inode 20 in a single pull, delivering its first line with counter 2 at
offset 0; and the dead-state half at the concrete state `stW3`. -/
theorem rotation_follow_only_while_counter_one_witness :
    Dogtail.pull fsR stR =
      (some (( "c\n" ).data, ⟨2, 20, 0⟩),
       ⟨[0], some ⟨20, 2⟩, some 20, some 2, 2⟩) ∧
    Dogtail.pull fsW2 stW3 = (none, stW3) := by
  constructor
  · have h := rotation_follow_only_while_counter_one.1 fsR stR ⟨10, 0⟩ 0 20
      rfl rfl rfl (by decide) rfl rfl (by decide) (by decide)
    exact h.trans (by decide)
  · exact rotation_follow_only_while_counter_one.2 fsW2 stW3 (by decide) rfl

/-- C3 is false as stated: during a checkpoint resume over candidates
`[0, 1]` (inodes 10 and 20) looking for checkpoint inode 20, the scan opens
candidate 0 (inode 10), finds it non-matching and moves on *without closing
it* — the explicit-close list is empty while both 10 and 20 were opened, so
two handles are open at once; likewise, the lazy reopen that finds
candidate 0's inode equal to the current file's (the "no rotation" case)
drops the freshly opened handle without closing it. -/
theorem unmatched_handles_not_closed :
    Dogtail.open_known_file fsC 20 3 stC0 =
      (⟨[0, 1], some ⟨20, 3⟩, some 20, some 3, 1⟩, [10, 20], []) ∧
    Dogtail.open_first_file fsW1 ⟨[0], none, some 10, some 6, 1⟩ =
      (⟨[0], none, some 10, some 6, 1⟩, [10], []) := by
  exact ⟨by decide, by decide⟩

/-- C3 (amended): the engine *attaches* at most one handle — the resume
scan either leaves the state unchanged or adopts exactly the checkpoint
inode at the checkpoint offset, and the lazy reopen either leaves the state
unchanged or attaches a single fresh handle at offset 0 — but neither ever
explicitly closes a handle it opened (their explicit-close lists are always
empty; opened-but-unmatched or duplicate handles are merely dropped, their
reclamation left to the runtime); the only explicit close the engine
performs is `_close` on the currently attached handle. -/
theorem handle_discipline (fs : FS) (i : Int) (off : Nat) (st : DogState) :
    (Dogtail.open_known_file fs i off st).2.2 = [] ∧
    ((Dogtail.open_known_file fs i off st).1 = st ∨
      (Dogtail.open_known_file fs i off st).1 =
        { st with fh := some ⟨i, off⟩, curr_offset := some off,
                  current_inode := some i }) ∧
    (Dogtail.open_first_file fs st).2.2 = [] ∧
    ((Dogtail.open_first_file fs st).1 = st ∨ ∃ ino,
      (Dogtail.open_first_file fs st).1 =
        { st with fh := some ⟨ino, 0⟩, counter := st.counter + 1,
                  curr_offset := some 0, current_inode := some ino }) ∧
    (Dogtail.closeFh st).2 =
      (match st.fh with | some h => [h.inode] | none => []) := by
  refine ⟨okfGo_closed_nil fs i off st st.candidates,
    okfGo_fst fs i off st st.candidates, ?_, ?_, ?_⟩
  · unfold Dogtail.open_first_file Dogtail.tryOpenFile
    rcases hh : st.candidates.head? with _ | c0
    · rfl
    · rcases hlk : fs.lookup c0 with _ | fhIno
      · simp only [hlk]
      · simp only [hlk]
        by_cases hci : st.current_inode == some fhIno
        · rw [if_pos hci]
        · rw [if_neg hci]
  · unfold Dogtail.open_first_file Dogtail.tryOpenFile
    rcases hh : st.candidates.head? with _ | c0
    · exact Or.inl rfl
    · rcases hlk : fs.lookup c0 with _ | fhIno
      · simp only [hlk]
        exact Or.inl trivial
      · simp only [hlk]
        by_cases hci : st.current_inode == some fhIno
        · rw [if_pos hci]
          exact Or.inl rfl
        · rw [if_neg hci]
          exact Or.inr ⟨fhIno, rfl⟩
  · unfold Dogtail.closeFh
    rcases hfh : st.fh with _ | h <;> rfl

/-- Appending a non-empty suffix determines the last character. -/
theorem endsWithNL_append {t u : List Char} (h : u ≠ []) :
    endsWithNL (t ++ u) = endsWithNL u := by
  unfold endsWithNL
  rw [List.getLast?_append_of_ne_nil t h]

/-- C4: if the bytes from the current read position contain no line
terminator (including zero bytes available), `_get_next_line` reports no
line and leaves the state — in particular the stream position — exactly as
it was before the read attempt; and once the completing bytes and a
terminator have been appended (the content from that position now being the
old unterminated fragment followed by `extra` containing a newline), a
later read from the very same position returns the whole stitched line —
fragment plus completion through its terminator — exactly once: the
returned Position records the fragment's start and the stream advances to
just past the terminator, so no bytes are lost or double-delivered. -/
theorem partial_line_safety (fs fsA : FS) (st : DogState) (h : Handle)
    (hfh : st.fh = some h)
    (hnoNL : '\n' ∉ (fs.content h.inode).drop h.pos) :
    Dogtail.get_next_line fs st = (none, st) ∧
    (∀ extra : List Char,
      (fsA.content h.inode).drop h.pos =
        (fs.content h.inode).drop h.pos ++ extra →
      '\n' ∈ extra →
      Dogtail.get_next_line fsA st =
        (some ((fs.content h.inode).drop h.pos ++ rlGo extra,
               ⟨st.counter, h.inode, h.pos⟩),
         { st with
           fh := some ⟨h.inode,
             h.pos + ((fs.content h.inode).drop h.pos ++ rlGo extra).length⟩,
           curr_offset := some
             (h.pos + ((fs.content h.inode).drop h.pos ++ rlGo extra).length),
           current_inode := some h.inode })) := by
  constructor
  · refine gnl_of_fh_some_fail hfh ?_
    rw [rlGo_of_not_mem hnoNL]
    exact endsWithNL_false_of_not_mem hnoNL
  · intro extra hdrop hmem
    have hne : rlGo extra ≠ [] := by
      intro hnil
      have hend := endsWithNL_rlGo_of_mem hmem
      rw [hnil] at hend
      simp [endsWithNL] at hend
    have hstitch : rlGo ((fsA.content h.inode).drop h.pos) =
        (fs.content h.inode).drop h.pos ++ rlGo extra := by
      rw [hdrop, rlGo_append hnoNL]
    have hend : endsWithNL (rlGo ((fsA.content h.inode).drop h.pos)) = true := by
      rw [hstitch, endsWithNL_append hne]
      exact endsWithNL_rlGo_of_mem hmem
    have hg := gnl_of_fh_some_success hfh hend
    rw [hstitch] at hg
    exact hg

/-- Witness for C4 at the spec's own scenario: content `"1\n2\n5,"` read
from offset 4 yields nothing and leaves the state untouched; after the
append completing it to `"1\n2\n5,5.5\n"`, the read from offset 4 returns
the stitched line `"5,5.5\n"` once, advancing to offset 10. -/
theorem partial_line_safety_witness :
    Dogtail.get_next_line fsP stP = (none, stP) ∧
    Dogtail.get_next_line fsQ stP =
      (some (( "5,5.5\n" ).data, ⟨1, 10, 4⟩),
       ⟨[0], some ⟨10, 10⟩, some 10, some 10, 1⟩) := by
  obtain ⟨h1, h2⟩ :=
    partial_line_safety fsP fsQ stP ⟨10, 4⟩ rfl (by decide)
  refine ⟨h1, ?_⟩
  have h3 := h2 ( "5.5\n" ).data (by decide) (by decide)
  exact h3.trans (by decide)

/-- C9: when the checkpoint parses but no candidate's inode matches it,
construction succeeds with no handle attached and nothing resumed (no
error is raised); the first subsequent pull then lazily opens candidate 0
fresh and — whenever a complete line is available — returns it with a
Position at byte offset 0 of the newly opened file, i.e. reading restarts
from the beginning of the live file. -/
theorem stale_checkpoint_recovery (fs : FS) (cands : List Nat) (s : String)
    (i o : Int)
    (hrc : Dogtail.readCheckpoint (some s) = .ok (some (i, o)))
    (hno : ∀ c ∈ cands, ∀ ino, fs.lookup c = some ino → ino ≠ i) :
    Dogtail.construct fs cands (some s) = .ok ⟨cands, none, none, none, 1⟩ ∧
    (∀ (fsA : FS) (c0 : Nat) (rest : List Nat) (ino0 : Int),
      cands = c0 :: rest → fsA.lookup c0 = some ino0 →
      endsWithNL (rlGo (fsA.content ino0)) = true →
      Dogtail.pull fsA ⟨cands, none, none, none, 1⟩ =
        (some (rlGo (fsA.content ino0), ⟨2, ino0, 0⟩),
         ⟨cands, some ⟨ino0, (rlGo (fsA.content ino0)).length⟩, some ino0,
          some ((rlGo (fsA.content ino0)).length), 2⟩)) := by
  constructor
  · simp only [Dogtail.construct]
    rw [hrc]
    simp only [Except.ok.injEq, Dogtail.open_known_file]
    exact okfGo_fst_no_match fs i o.toNat ⟨cands, none, none, none, 1⟩ cands hno
  · intro fsA c0 rest ino0 hcands hlk hend
    have hre : Dogtail.reopen fsA ⟨cands, none, none, none, 1⟩ =
        { (⟨cands, none, none, none, 1⟩ : DogState) with
          fh := some ⟨ino0, 0⟩,
          counter := (⟨cands, none, none, none, 1⟩ : DogState).counter + 1,
          curr_offset := some 0, current_inode := some ino0 } := by
      refine reopen_attach rfl rfl ?_ hlk (by simp)
      simp [hcands]
    have hg := gnl_attach_success hre hend
    exact (pull_of_gnl_some hg)

/-- Witness for C9: checkpoint `"99\n5\n"` names inode 99, which no
candidate of `fsW1` carries; construction resumes nothing and the first
pull restarts from byte 0 of candidate 0's file. -/
theorem stale_checkpoint_recovery_witness :
    Dogtail.construct fsW1 [0] (some "99\n5\n") = .ok stW0 ∧
    Dogtail.pull fsW1 stW0 = (some (( "a\n" ).data, ⟨2, 10, 0⟩), stW1) := by
  obtain ⟨h1, h2⟩ := stale_checkpoint_recovery fsW1 [0] "99\n5\n" 99 5 rfl
    (by
      intro c hc ino hino
      simp only [List.mem_singleton] at hc
      subst hc
      simp only [fsW1] at hino
      simp at hino
      omega)
  refine ⟨h1, ?_⟩
  have h3 := h2 fsW1 0 [] 10 rfl rfl (by decide)
  exact h3.trans (by decide)

/-- C6: the sequence counter starts at 1 on construction; a pull changes it
only by a single increment from 1 to 2, and only when the engine attaches
to a file whose inode differs from the one it was on (a fresh first open or
a rotation follow); consequently every reachable state has counter 1 or 2. -/
theorem counter_one_or_two :
    (∀ fs cands file st, Dogtail.construct fs cands file = .ok st →
      st.counter = 1) ∧
    (∀ fs st r st', Dogtail.pull fs st = (r, st') →
      st'.counter = st.counter ∨
        (st.counter = 1 ∧ st'.counter = 2 ∧ ∃ ino,
          st'.current_inode = some ino ∧ st.current_inode ≠ some ino)) ∧
    (∀ st, Reachable st → st.counter = 1 ∨ st.counter = 2) := by
  have hstep : ∀ fs st r st', Dogtail.pull fs st = (r, st') →
      st'.counter = st.counter ∨
        (st.counter = 1 ∧ st'.counter = 2 ∧ ∃ ino,
          st'.current_inode = some ino ∧ st.current_inode ≠ some ino) := by
    intro fs st r st' hp
    cases r with
    | none =>
      rcases (pull_none_spec hp).2.2 with ⟨hcnt, -⟩ | ⟨h1, h2, ino, h3, h4⟩
      · exact Or.inl hcnt
      · exact Or.inr ⟨h1, by omega, ino, h3, h4⟩
    | some lo =>
      obtain ⟨l, o⟩ := lo
      obtain ⟨-, -, hcnt, hci, -, -, -, -, -, -, hdisj⟩ := pull_some_spec hp
      rcases hdisj with he | ⟨h1, h2, h4⟩
      · exact Or.inl (by omega)
      · exact Or.inr ⟨h1, by omega, o.inode, hci, h4⟩
  refine ⟨fun fs cands file st h => (construct_ok_basic h).1, hstep, ?_⟩
  intro st hr
  induction hr with
  | boot fs cands file st h => exact Or.inl (construct_ok_basic h).1
  | pull fs st st' r hr hp ih =>
    rcases hstep fs st r st' hp with he | ⟨h1, h2, -⟩
    · omega
    · omega

/-- Witness for C6 at the concrete reachable state `stW3` (fresh boot on
`fsW1`, two line pulls, then an end-of-stream pull). -/
theorem counter_one_or_two_witness :
    stW3.counter = 1 ∨ stW3.counter = 2 := by
  refine counter_one_or_two.2.2 stW3 ?_
  exact Reachable.pull fsW1 stW2 stW3 none
    (Reachable.pull fsW1 stW1 stW2 (some (( "b\n" ).data, ⟨2, 10, 2⟩))
      (Reachable.pull fsW1 stW0 stW1 (some (( "a\n" ).data, ⟨2, 10, 0⟩))
        (Reachable.boot fsW1 [0] none stW0 rfl) (by decide))
      (by decide))
    (by decide)

/-- Invariant for runs: the delivered positions are pairwise strictly
increasing, and all of them lie at or above the starting state's bound. -/
theorem runFrom_invariant {st : DogState} {os : List Offset}
    {stF : DogState} (h : RunFrom st os stF) :
    os.Pairwise (fun a b => Offset.lt a b = true) ∧
    ∀ o ∈ os, pLe (bnd st) (o.counter, o.offset) := by
  induction h with
  | nil st => simp
  | stepSome fs st st' st'' l o os hp hrun ih =>
    obtain ⟨hpair, hmem⟩ := ih
    obtain ⟨hle, hlt, -⟩ := pull_some_spec hp
    constructor
    · refine List.Pairwise.cons ?_ hpair
      intro o' ho'
      exact Offset.lt_of_pLt (pLt_of_pLt_of_pLe hlt (hmem o' ho'))
    · intro o'' h''
      rcases List.mem_cons.mp h'' with rfl | hmemtl
      · exact hle
      · exact pLe_trans hle
          (pLe_trans (pLe_of_pLt hlt) (hmem o'' hmemtl))
  | stepNone fs st st' st'' os hp hrun ih =>
    obtain ⟨hpair, hmem⟩ := ih
    have hle := (pull_none_spec hp).1
    exact ⟨hpair, fun o ho => pLe_trans hle (hmem o ho)⟩

/-- C8: in a single engine run — engine constructed once, then pulled any
number of times while the file system may change arbitrarily between
pulls — the Positions delivered by the successful pulls are pairwise
strictly increasing in order of production, both between consecutive lines
of one file and across a switch to a new file. -/
theorem positions_strictly_increasing (fs0 : FS) (cands : List Nat)
    (file : Option String) (st0 stF : DogState) (os : List Offset)
    (hinit : Dogtail.construct fs0 cands file = .ok st0)
    (hrun : RunFrom st0 os stF) :
    os.Pairwise (fun a b => Offset.lt a b = true) :=
  (runFrom_invariant hrun).1

/-- Witness for C8: the two positions delivered by the concrete run over
`fsW1` are strictly increasing. -/
theorem positions_strictly_increasing_witness :
    [(⟨2, 10, 0⟩ : Offset), ⟨2, 10, 2⟩].Pairwise
      (fun a b => Offset.lt a b = true) := by
  refine positions_strictly_increasing fsW1 [0] none stW0 stW2
    [⟨2, 10, 0⟩, ⟨2, 10, 2⟩] rfl ?_
  exact RunFrom.stepSome fsW1 stW0 stW1 stW2 ( "a\n" ).data ⟨2, 10, 0⟩
    [⟨2, 10, 2⟩] (by decide)
    (RunFrom.stepSome fsW1 stW1 stW2 stW2 ( "b\n" ).data ⟨2, 10, 2⟩ []
      (by decide) (RunFrom.nil stW2))
